import Mathlib

/-
  Verification development for the ComfyS3 repository.

  The code under scrutiny is `src/client_s3.py`, in particular the
  save-path resolution algorithm `S3.get_save_path` together with its
  collaborators `S3.get_files`, `S3.does_folder_exist`, `S3.create_folder`
  and the local helpers `map_filename` and `compute_vars`.

  Python strings are modelled as lists of characters (`Str`); Python ints
  as Lean `Int`; the S3 bucket as an explicit `Store` state.  The path
  helpers `os.path.basename`, `os.path.dirname`, `os.path.normpath` and
  `os.path.join` are the POSIX variants, translated clause by clause from
  CPython `posixpath.py`.  `int(...)` is modelled for ASCII decimal
  strings (`pyInt`), which covers optional surrounding whitespace and an
  optional sign; exotic unicode numerals accepted by CPython are outside
  the model.
-/

namespace ComfyS3

/-- Python strings are sequences of unicode code points; we model them as
lists of Lean characters. -/
abbrev Str := List Char

/-- Convenience: the character list underlying a Lean string literal. -/
def str (s : String) : Str := s.data

/-- Python `s.split(sep)` for a single-character separator `sep`.
`"".split(sep)` is `[""]`, and separators at the edges produce empty
pieces, exactly as in Python. -/
def splitOnCharL (sep : Char) : Str → List Str
  | [] => [[]]
  | c :: rest =>
    if c = sep then [] :: splitOnCharL sep rest
    else
      match splitOnCharL sep rest with
      | [] => [[c]]
      | h :: t => (c :: h) :: t

/-- Whether the pattern `p :: ps` occurs as a contiguous substring. -/
def containsSubL (p : Char) (ps : Str) : Str → Bool
  | [] => false
  | c :: rest =>
    (decide (c = p) && decide (rest.take ps.length = ps)) || containsSubL p ps rest

/-- Fuel-driven worker for `splitSubL`; the fuel is an upper bound on the
length of the string still to be scanned, so the first arm is inert. -/
def splitSubFuel (p : Char) (ps : Str) : Nat → Str → List Str
  | 0, _ => [[]]
  | _ + 1, [] => [[]]
  | fuel + 1, c :: rest =>
    if c = p ∧ rest.take ps.length = ps then
      [] :: splitSubFuel p ps fuel (rest.drop ps.length)
    else
      match splitSubFuel p ps fuel rest with
      | [] => [[c]]
      | h :: t => (c :: h) :: t

/-- Python `s.split(pat)` for a non-empty pattern `p :: ps`: split on the
leftmost non-overlapping occurrences of the pattern. -/
def splitSubL (p : Char) (ps : Str) (s : Str) : List Str :=
  splitSubFuel p ps s.length s

/-- Fuel-driven worker for `replaceL`; the fuel is an upper bound on the
length of the string still to be scanned, so the first arm is inert. -/
def replaceFuel (p : Char) (ps rep : Str) : Nat → Str → Str
  | 0, _ => []
  | _ + 1, [] => []
  | fuel + 1, c :: rest =>
    if c = p ∧ rest.take ps.length = ps then
      rep ++ replaceFuel p ps rep fuel (rest.drop ps.length)
    else
      c :: replaceFuel p ps rep fuel rest

/-- Python `s.replace(pat, rep)` for a non-empty pattern `p :: ps`:
scan left to right, replacing each non-overlapping occurrence. -/
def replaceL (p : Char) (ps rep : Str) (s : Str) : Str :=
  replaceFuel p ps rep s.length s

/-- Python `s.replace(pat, rep)` (an empty pattern never occurs in the
translated code, so that branch is inert). -/
def replaceSub (s pat rep : Str) : Str :=
  match pat with
  | [] => s
  | p :: ps => replaceL p ps rep s

/-- Python `str(n)` for an int: decimal form with a leading minus sign for
negative values, which coincides with `toString` on `Int`. -/
def intToStr (n : Int) : Str := (toString n).data

/-- `compute_vars` from `get_save_path` (client_s3.py lines 150-153):
substitute the width token, then the height token. -/
def compute_vars (input_str : Str) (image_width image_height : Int) : Str :=
  replaceSub (replaceSub input_str (str "%width%") (intToStr image_width))
    (str "%height%") (intToStr image_height)

/-- Modelled from the spec: "Substitute every occurrence of the literal
token `%width%` with the decimal string form of `width`, and `%height%`
similarly".  Realised by splitting on the non-overlapping occurrences of
each token and interleaving the replacement text, the canonical reading
of "every occurrence replaced". -/
def substituteSpec (t : Str) (w h : Int) : Str :=
  List.intercalate (intToStr h)
    (splitSubL '%' (str "height%")
      (List.intercalate (intToStr w) (splitSubL '%' (str "width%") t)))

/-- Python `s.strip()` restricted to ASCII whitespace. -/
def pyStrip (s : Str) : Str :=
  ((s.dropWhile Char.isWhitespace).reverse.dropWhile Char.isWhitespace).reverse

/-- The value of a non-empty all-digit string, `none` otherwise. -/
def digitsVal (ds : Str) : Option Nat :=
  if ds = [] then none
  else
    ds.foldl
      (fun acc c =>
        match acc with
        | none => none
        | some n => if c.isDigit then some (n * 10 + (c.toNat - '0'.toNat)) else none)
      (some 0)

/-- Python `int(s)` on ASCII decimal strings: strip whitespace, allow one
optional sign, then digits; `none` models a raised `ValueError`. -/
def pyInt (s : Str) : Option Int :=
  match pyStrip s with
  | '+' :: ds => (digitsVal ds).map (fun n => (n : Int))
  | '-' :: ds => (digitsVal ds).map (fun n => -(n : Int))
  | ds => (digitsVal ds).map (fun n => (n : Int))

/-- POSIX `os.path.basename`: everything after the last slash. -/
def basenameL (p : Str) : Str :=
  (p.reverse.takeWhile (fun c => decide (c ≠ '/'))).reverse

/-- POSIX `os.path.dirname`: everything up to the last slash, with
trailing slashes stripped unless the head is all slashes. -/
def dirnameL (p : Str) : Str :=
  let head := p.take (p.length - (basenameL p).length)
  if head ≠ [] ∧ head ≠ List.replicate head.length '/' then
    (head.reverse.dropWhile (fun c => decide (c = '/'))).reverse
  else head

/-- POSIX `os.path.normpath`, translated clause by clause from CPython
`posixpath.normpath`. -/
def normpathL (p : Str) : Str :=
  if p = [] then ['.']
  else
    let islash : Nat :=
      if p.take 1 = ['/'] then
        if p.take 2 = ['/', '/'] ∧ p.take 3 ≠ ['/', '/', '/'] then 2 else 1
      else 0
    let comps := splitOnCharL '/' p
    let newComps := comps.foldl
      (fun acc comp =>
        if comp = [] ∨ comp = ['.'] then acc
        else if comp ≠ ['.', '.'] ∨ (islash = 0 ∧ acc = []) ∨ acc.getLast? = some ['.', '.'] then
          acc ++ [comp]
        else if acc ≠ [] then acc.dropLast
        else acc)
      []
    let out := List.replicate islash '/' ++ List.intercalate ['/'] newComps
    if out = [] then ['.'] else out

/-- POSIX `os.path.join` on two components. -/
def joinL (a b : Str) : Str :=
  if b.head? = some '/' then b
  else if a = [] ∨ a.getLast? = some '/' then a ++ b
  else a ++ '/' :: b

/-- The S3 bucket together with the pieces of `S3` instance state that
`get_save_path` reads.  `keys` lists the bucket object keys in the order
the store enumerates them.  The three flags model whether the
corresponding network call succeeds or raises (a raised call is caught
and logged by the Python code). -/
structure Store where
  keys : List Str
  list_limit_items : Nat
  output_dir : Str
  existsOk : Bool
  listOk : Bool
  putOk : Bool
deriving DecidableEq

/-- `S3.does_folder_exist` (lines 65-72): filter the bucket by the
folder-name prefix and test whether any key in the result starts with it;
on a raised store error the function logs and returns `None`. -/
def does_folder_exist (s : Store) (folder : Str) : Option Bool :=
  if s.existsOk then
    some ((s.keys.filter (fun k => folder.isPrefixOf k)).any (fun k => folder.isPrefixOf k))
  else none

/-- `S3.create_folder` (lines 74-80): put a marker object `folder ++ "/"`.
An S3 put overwrites, so the key set gains the marker at most once; on a
raised store error the function logs and changes nothing. -/
def create_folder (s : Store) (folder : Str) : Store :=
  if s.putOk then
    if (folder ++ ['/']) ∈ s.keys then s
    else { s with keys := s.keys ++ [folder ++ ['/']] }
  else s

/-- `S3.get_files` (lines 53-63): when the folder existence check is
truthy, list up to `list_limit_items` keys with the given prefix and drop
those ending in a slash; every failure path returns the empty list. -/
def get_files (s : Store) (pfx : Str) : List Str :=
  match does_folder_exist s pfx with
  | some true =>
    if s.listOk then
      ((s.keys.filter (fun k => pfx.isPrefixOf k)).take s.list_limit_items).filter
        (fun f => decide (f.getLast? ≠ some '/'))
    else []
  | _ => []

/-- Lines 161-163 of `get_save_path`: create the output folder when the
existence check is not truthy (`None` from a raised check counts as
false). -/
def ensure_folder (s : Store) (folder : Str) : Store :=
  if (does_folder_exist s folder).getD false then s else create_folder s folder

/-- `map_filename` from `get_save_path` (lines 141-148).  `fp` is the
substituted `filename_prefix` captured by the closure; `k` is a listed
key.  The slice `k[plen+1:]` is split on underscores and its first piece
parsed as an int, any parse failure yielding 0. -/
def map_filename (fp k : Str) : Int × Str :=
  let plen := (basenameL fp).length
  let pfx := k.take (plen + 1)
  let digits := (pyInt ((splitOnCharL '_' (k.drop (plen + 1))).headD [])).getD 0
  (digits, pfx)

/-- The filter of line 171: `a[1][:-1] == filename and a[1][-1] == "_"`.
For a non-empty second component this is exactly the Python test; the
Python expression can only raise (on `a[1][-1]`) when both the listed key
and `filename` are empty, and S3 keys are never empty. -/
def is_eligible (fname : Str) (a : Int × Str) : Bool :=
  decide (a.2.dropLast = fname) && decide (a.2.getLast? = some '_')

/-- Python tuple comparison `x < y` on `(int, str)` pairs, used by
`max`. -/
def pairLt (x y : Int × Str) : Bool :=
  decide (x.1 < y.1) || (decide (x.1 = y.1) && decide (x.2 < y.2))

/-- One step of Python `max`: keep the current best unless the new item
is strictly greater. -/
def pickMax (b a : Int × Str) : Int × Str :=
  if pairLt b a then a else b

/-- Line 155: the substituted template (the rebound `filename_prefix`). -/
def gsp_resolved (fp : Str) (w h : Int) : Str := compute_vars fp w h

/-- Line 156: `subfolder = os.path.dirname(os.path.normpath(filename_prefix))`. -/
def gsp_subfolder (fp : Str) (w h : Int) : Str :=
  dirnameL (normpathL (gsp_resolved fp w h))

/-- Line 157: `filename = os.path.basename(os.path.normpath(filename_prefix))`. -/
def gsp_filename (fp : Str) (w h : Int) : Str :=
  basenameL (normpathL (gsp_resolved fp w h))

/-- Line 159: `full_output_folder_s3 = os.path.join(self.output_dir, subfolder)`. -/
def gsp_folder (s : Store) (fp : Str) (w h : Int) : Str :=
  joinL s.output_dir (gsp_subfolder fp w h)

/-- The store after the provisioning step of lines 161-163. -/
def gsp_store (s : Store) (fp : Str) (w h : Int) : Store :=
  ensure_folder s (gsp_folder s fp w h)

/-- Line 167: `files = self.get_files(full_output_folder_s3)`. -/
def gsp_files (s : Store) (fp : Str) (w h : Int) : List Str :=
  get_files (gsp_store s fp w h) (gsp_folder s fp w h)

/-- Lines 170-173: the eligible candidates, i.e. the mapped keys passing
the filter of line 171. -/
def gsp_eligible (s : Store) (fp : Str) (w h : Int) : List (Int × Str) :=
  ((gsp_files s fp w h).map (map_filename (gsp_resolved fp w h))).filter
    (is_eligible (gsp_filename fp w h))

/-- Lines 165-178: `max(...)[0] + 1`, with the `ValueError` of `max` on an
empty iterable caught and turned into counter 1. -/
def gsp_counter (s : Store) (fp : Str) (w h : Int) : Int :=
  match gsp_eligible s fp w h with
  | [] => 1
  | e :: es => (es.foldl pickMax e).1 + 1

/-- The tuple returned by `get_save_path` (line 180).  `resolved_template`
is the rebound `filename_prefix` of the source. -/
structure SavePath where
  full_output_folder_s3 : Str
  filename : Str
  counter : Int
  subfolder : Str
  resolved_template : Str
deriving DecidableEq

/-- `S3.get_save_path` (lines 137-180), as a state-passing function: the
store after the folder-provisioning side effect, together with the
returned tuple. -/
def get_save_path (s : Store) (fp : Str) (w h : Int) : Store × SavePath :=
  (gsp_store s fp w h,
   { full_output_folder_s3 := gsp_folder s fp w h
     filename := gsp_filename fp w h
     counter := gsp_counter s fp w h
     subfolder := gsp_subfolder fp w h
     resolved_template := gsp_resolved fp w h })

/-- A bucket holding exactly the keys of the C1 scenario, with an empty
output root so that the listed keys are exactly those names. -/
def storeA : Store :=
  { keys := [str "img_1.png", str "img_2.png", str "img_7.png"],
    list_limit_items := 100, output_dir := [],
    existsOk := true, listOk := true, putOk := true }

/-- A bucket holding exactly the keys of the C5 scenario. -/
def storeB : Store :=
  { keys := [str "img_abc.png", str "img_3.png"],
    list_limit_items := 100, output_dir := [],
    existsOk := true, listOk := true, putOk := true }

/-- A bucket holding one key whose counter segment parses to the negative
integer -3. -/
def storeC : Store :=
  { keys := [str "img_-3_x.png"],
    list_limit_items := 100, output_dir := [],
    existsOk := true, listOk := true, putOk := true }

/-- A bucket with a non-empty output root and one correctly numbered
output key under it. -/
def storeD : Store :=
  { keys := [str "out/img_3_x.png"],
    list_limit_items := 100, output_dir := str "out",
    existsOk := true, listOk := true, putOk := true }

/-- A bucket holding only the folder-marker key `p/`. -/
def storeE : Store :=
  { keys := [str "p/"],
    list_limit_items := 100, output_dir := [],
    existsOk := true, listOk := true, putOk := true }

/-- An empty bucket with all store operations succeeding. -/
def storeF : Store :=
  { keys := [], list_limit_items := 100, output_dir := [],
    existsOk := true, listOk := true, putOk := true }

/-- A bucket whose listing call raises, although a correctly numbered
output key is present. -/
def storeG : Store :=
  { keys := [str "img_9_x.png"],
    list_limit_items := 100, output_dir := [],
    existsOk := true, listOk := false, putOk := true }

/-- The fuel argument of `replaceFuel` is irrelevant once it dominates the
length of the scanned string. -/
theorem replaceFuel_congr (p : Char) (ps rep : Str) :
    ∀ (f₁ f₂ : Nat) (s : Str), s.length ≤ f₁ → s.length ≤ f₂ →
      replaceFuel p ps rep f₁ s = replaceFuel p ps rep f₂ s := by
  intro f₁
  induction f₁ with
  | zero =>
    intro f₂ s h₁ h₂
    have hs : s = [] := by
      cases s with
      | nil => rfl
      | cons c r => simp at h₁
    subst hs
    cases f₂ <;> rfl
  | succ n ih =>
    intro f₂ s h₁ h₂
    cases s with
    | nil => cases f₂ <;> rfl
    | cons c rest =>
      cases f₂ with
      | zero => simp at h₂
      | succ g =>
        simp only [replaceFuel]
        by_cases hc : c = p ∧ rest.take ps.length = ps
        · rw [if_pos hc, if_pos hc]
          have hlen : (rest.drop ps.length).length ≤ rest.length := by
            simp [List.length_drop]
          have h₁' : (rest.drop ps.length).length ≤ n := by
            simp only [List.length_cons] at h₁; omega
          have h₂' : (rest.drop ps.length).length ≤ g := by
            simp only [List.length_cons] at h₂; omega
          rw [ih g _ h₁' h₂']
        · rw [if_neg hc, if_neg hc]
          have h₁' : rest.length ≤ n := by
            simp only [List.length_cons] at h₁; omega
          have h₂' : rest.length ≤ g := by
            simp only [List.length_cons] at h₂; omega
          rw [ih g _ h₁' h₂']

/-- The unfolding equation of `replaceL` on a cons cell. -/
theorem replaceL_cons (p : Char) (ps rep : Str) (c : Char) (rest : Str) :
    replaceL p ps rep (c :: rest) =
      if c = p ∧ rest.take ps.length = ps then
        rep ++ replaceL p ps rep (rest.drop ps.length)
      else
        c :: replaceL p ps rep rest := by
  show replaceFuel p ps rep (rest.length + 1) (c :: rest) = _
  simp only [replaceFuel]
  by_cases hc : c = p ∧ rest.take ps.length = ps
  · rw [if_pos hc, if_pos hc]
    rw [replaceFuel_congr p ps rep rest.length (rest.drop ps.length).length
      (rest.drop ps.length) (by simp [List.length_drop]) le_rfl]
    rfl
  · rw [if_neg hc, if_neg hc]
    rfl

/-- The fuel argument of `splitSubFuel` is irrelevant once it dominates
the length of the scanned string. -/
theorem splitSubFuel_congr (p : Char) (ps : Str) :
    ∀ (f₁ f₂ : Nat) (s : Str), s.length ≤ f₁ → s.length ≤ f₂ →
      splitSubFuel p ps f₁ s = splitSubFuel p ps f₂ s := by
  intro f₁
  induction f₁ with
  | zero =>
    intro f₂ s h₁ h₂
    have hs : s = [] := by
      cases s with
      | nil => rfl
      | cons c r => simp at h₁
    subst hs
    cases f₂ <;> rfl
  | succ n ih =>
    intro f₂ s h₁ h₂
    cases s with
    | nil => cases f₂ <;> rfl
    | cons c rest =>
      cases f₂ with
      | zero => simp at h₂
      | succ g =>
        simp only [splitSubFuel]
        by_cases hc : c = p ∧ rest.take ps.length = ps
        · rw [if_pos hc, if_pos hc]
          have h₁' : (rest.drop ps.length).length ≤ n := by
            simp only [List.length_cons] at h₁; simp [List.length_drop]; omega
          have h₂' : (rest.drop ps.length).length ≤ g := by
            simp only [List.length_cons] at h₂; simp [List.length_drop]; omega
          rw [ih g _ h₁' h₂']
        · rw [if_neg hc, if_neg hc]
          have h₁' : rest.length ≤ n := by
            simp only [List.length_cons] at h₁; omega
          have h₂' : rest.length ≤ g := by
            simp only [List.length_cons] at h₂; omega
          rw [ih g _ h₁' h₂']

/-- The unfolding equation of `splitSubL` on a cons cell. -/
theorem splitSubL_cons (p : Char) (ps : Str) (c : Char) (rest : Str) :
    splitSubL p ps (c :: rest) =
      if c = p ∧ rest.take ps.length = ps then
        [] :: splitSubL p ps (rest.drop ps.length)
      else
        match splitSubL p ps rest with
        | [] => [[c]]
        | h :: t => (c :: h) :: t := by
  show splitSubFuel p ps (rest.length + 1) (c :: rest) = _
  simp only [splitSubFuel]
  by_cases hc : c = p ∧ rest.take ps.length = ps
  · rw [if_pos hc, if_pos hc]
    rw [splitSubFuel_congr p ps rest.length (rest.drop ps.length).length
      (rest.drop ps.length) (by simp [List.length_drop]) le_rfl]
    rfl
  · rw [if_neg hc, if_neg hc]
    rfl

/-- Splitting never produces the empty list of pieces. -/
theorem splitSubL_ne_nil (p : Char) (ps s : Str) : splitSubL p ps s ≠ [] := by
  cases s with
  | nil => simp [splitSubL, splitSubFuel]
  | cons c rest =>
    rw [splitSubL_cons]
    by_cases hc : c = p ∧ rest.take ps.length = ps
    · rw [if_pos hc]; simp
    · rw [if_neg hc]
      cases hsp : splitSubL p ps rest <;> simp

/-- Interleaving a separator through a singleton is the identity. -/
theorem intercalate_single (sep x : Str) : List.intercalate sep [x] = x := by
  simp [List.intercalate]

/-- The unfolding equation of `List.intercalate` on a cons cell with a
non-empty tail. -/
theorem intercalate_cons_of_ne_nil (sep a : Str) (l : List Str) (h : l ≠ []) :
    List.intercalate sep (a :: l) = a ++ sep ++ List.intercalate sep l := by
  cases l with
  | nil => exact absurd rfl h
  | cons b t =>
    simp only [List.intercalate, List.intersperse_cons_cons, List.flatten_cons]
    simp [List.append_assoc]

/-- The scanner `replaceL` agrees with splitting on the pattern and
interleaving the replacement text. -/
theorem replaceL_eq_intercalate (p : Char) (ps rep : Str) : ∀ s : Str,
    replaceL p ps rep s = List.intercalate rep (splitSubL p ps s) := by
  have main : ∀ (n : Nat) (s : Str), s.length = n →
      replaceL p ps rep s = List.intercalate rep (splitSubL p ps s) := by
    intro n
    induction n using Nat.strong_induction_on with
    | _ n ih =>
      intro s hs
      cases s with
      | nil =>
        show replaceFuel p ps rep 0 [] = List.intercalate rep (splitSubFuel p ps 0 [])
        simp [replaceFuel, splitSubFuel, intercalate_single]
      | cons c rest =>
        rw [replaceL_cons, splitSubL_cons]
        by_cases hc : c = p ∧ rest.take ps.length = ps
        · rw [if_pos hc, if_pos hc]
          rw [intercalate_cons_of_ne_nil rep [] _ (splitSubL_ne_nil p ps _)]
          have hlt : (rest.drop ps.length).length < n := by
            simp only [List.length_cons] at hs; simp [List.length_drop]; omega
          rw [ih _ hlt _ rfl]
          simp
        · rw [if_neg hc, if_neg hc]
          have hlt : rest.length < n := by
            simp only [List.length_cons] at hs; omega
          have hrec := ih _ hlt rest rfl
          cases hsp : splitSubL p ps rest with
          | nil => exact absurd hsp (splitSubL_ne_nil p ps rest)
          | cons h t =>
            rw [hsp] at hrec
            cases t with
            | nil =>
              simp only [intercalate_single] at hrec ⊢
              rw [hrec]
            | cons u v =>
              rw [intercalate_cons_of_ne_nil rep h (u :: v) (by simp)] at hrec
              rw [intercalate_cons_of_ne_nil rep (c :: h) (u :: v) (by simp)]
              rw [hrec]
              simp
  intro s; exact main s.length s rfl

/-- When the pattern does not occur, splitting yields the whole string as
the single piece. -/
theorem splitSubL_of_not_contains (p : Char) (ps : Str) : ∀ s : Str,
    containsSubL p ps s = false → splitSubL p ps s = [s] := by
  intro s
  induction s with
  | nil => intro _; rfl
  | cons c rest ih =>
    intro h
    simp only [containsSubL, Bool.or_eq_false_iff, Bool.and_eq_false_iff] at h
    obtain ⟨h₁, h₂⟩ := h
    have hc : ¬(c = p ∧ rest.take ps.length = ps) := by
      intro ⟨hcp, hts⟩
      rcases h₁ with h₁ | h₁ <;> simp [hcp, hts] at h₁
    rw [splitSubL_cons, if_neg hc, ih h₂]

/-- When the pattern does not occur, `replaceL` is the identity. -/
theorem replaceL_of_not_contains (p : Char) (ps rep s : Str)
    (h : containsSubL p ps s = false) : replaceL p ps rep s = s := by
  rw [replaceL_eq_intercalate, splitSubL_of_not_contains p ps s h, intercalate_single]

/-- Every key returned by `get_files` starts with the requested key
prefix, is a key of the bucket, and does not end in a slash. -/
theorem get_files_sound (s : Store) (q k : Str) (hk : k ∈ get_files s q) :
    q <+: k ∧ k ∈ s.keys ∧ k.getLast? ≠ some '/' := by
  unfold get_files at hk
  rcases hdfe : does_folder_exist s q with _ | b
  · rw [hdfe] at hk; simp at hk
  · rw [hdfe] at hk
    cases b with
    | false => simp at hk
    | true =>
      by_cases hl : s.listOk = true
      · rw [if_pos hl] at hk
        rw [List.mem_filter] at hk
        obtain ⟨hk', hend⟩ := hk
        have hk'' := List.mem_of_mem_take hk'
        rw [List.mem_filter] at hk''
        refine ⟨?_, hk''.1, ?_⟩
        · exact List.isPrefixOf_iff_prefix.mp hk''.2
        · simpa using hend
      · rw [if_neg hl] at hk; simp at hk

/-- `ensure_folder` leaves the bucket keys unchanged or appends exactly
the marker key. -/
theorem ensure_folder_keys (s : Store) (q : Str) :
    (ensure_folder s q).keys = s.keys ∨
      (ensure_folder s q).keys = s.keys ++ [q ++ ['/']] := by
  unfold ensure_folder create_folder
  by_cases h₁ : (does_folder_exist s q).getD false = true
  · rw [if_pos h₁]; exact Or.inl rfl
  · rw [if_neg h₁]
    by_cases h₂ : s.putOk = true
    · rw [if_pos h₂]
      by_cases h₃ : (q ++ ['/']) ∈ s.keys
      · rw [if_pos h₃]; exact Or.inl rfl
      · rw [if_neg h₃]; exact Or.inr rfl
    · rw [if_neg h₂]; exact Or.inl rfl

/-- `ensure_folder` only touches the key list, never the store flags or
configuration. -/
theorem ensure_folder_flags (s : Store) (q : Str) :
    (ensure_folder s q).existsOk = s.existsOk ∧
      (ensure_folder s q).listOk = s.listOk ∧
      (ensure_folder s q).putOk = s.putOk ∧
      (ensure_folder s q).list_limit_items = s.list_limit_items ∧
      (ensure_folder s q).output_dir = s.output_dir := by
  unfold ensure_folder create_folder
  by_cases h₁ : (does_folder_exist s q).getD false = true
  · rw [if_pos h₁]; exact ⟨rfl, rfl, rfl, rfl, rfl⟩
  · rw [if_neg h₁]
    by_cases h₂ : s.putOk = true
    · rw [if_pos h₂]
      by_cases h₃ : (q ++ ['/']) ∈ s.keys
      · rw [if_pos h₃]; exact ⟨rfl, rfl, rfl, rfl, rfl⟩
      · rw [if_neg h₃]; exact ⟨rfl, rfl, rfl, rfl, rfl⟩
    · rw [if_neg h₂]; exact ⟨rfl, rfl, rfl, rfl, rfl⟩

/-- Every key scanned by the counter computation is a key that was
already in the bucket: the marker possibly written by the provisioning
step ends in a slash and is filtered out of the listing. -/
theorem gsp_files_mem_keys (s : Store) (fp : Str) (w h : Int) (k : Str)
    (hk : k ∈ gsp_files s fp w h) : k ∈ s.keys := by
  unfold gsp_files at hk
  obtain ⟨-, hmem, hend⟩ := get_files_sound _ _ _ hk
  rcases ensure_folder_keys s (gsp_folder s fp w h) with he | he
  · rw [show gsp_store s fp w h = ensure_folder s (gsp_folder s fp w h) from rfl, he] at hmem
    exact hmem
  · rw [show gsp_store s fp w h = ensure_folder s (gsp_folder s fp w h) from rfl, he] at hmem
    rcases List.mem_append.mp hmem with hmem | hmem
    · exact hmem
    · exfalso
      have : k = gsp_folder s fp w h ++ ['/'] := by simpa using hmem
      rw [this] at hend
      exact hend (List.getLast?_concat _)

/-- The running maximum of Python `max` is always one of the scanned
items. -/
theorem foldl_pickMax_mem : ∀ (es : List (Int × Str)) (e : Int × Str),
    es.foldl pickMax e ∈ e :: es := by
  intro es
  induction es with
  | nil => intro e; simp
  | cons a t ih =>
    intro e
    have := ih (pickMax e a)
    simp only [List.foldl_cons]
    rcases List.mem_cons.mp this with h | h
    · rw [h]
      unfold pickMax
      by_cases hlt : pairLt e a = true
      · rw [if_pos hlt]; simp
      · rw [if_neg hlt]; simp
    · simp [List.mem_cons.mpr (Or.inr (List.mem_cons.mpr (Or.inr h)))]

/-- A candidate passing the eligibility filter forces its key to start
with the base filename immediately followed by an underscore. -/
theorem eligible_key_shape (fname fp k : Str)
    (h : is_eligible fname (map_filename fp k) = true) :
    (fname ++ ['_']) <+: k := by
  simp only [is_eligible, map_filename, Bool.and_eq_true, decide_eq_true_eq] at h
  obtain ⟨h₁, h₂⟩ := h
  set t := k.take ((basenameL fp).length + 1) with ht
  have hne : t ≠ [] := by
    intro h0
    rw [h0] at h₂
    simp at h₂
  have hsplit := List.dropLast_append_getLast hne
  have hlast : t.getLast hne = '_' := by
    have := List.getLast?_eq_getLast_of_ne_nil hne
    rw [h₂] at this
    exact (Option.some_injective _ this).symm
  have hteq : t = fname ++ ['_'] := by
    rw [← hsplit, h₁, hlast]
  rw [← hteq, ht]
  exact List.take_prefix _ _

/-- The slash character never occurs in a POSIX basename. -/
theorem slash_not_mem_basenameL (p : Str) : '/' ∉ basenameL p := by
  intro hmem
  unfold basenameL at hmem
  rw [List.mem_reverse] at hmem
  have := List.mem_takeWhile_imp hmem
  simp at this

/-- Joining a non-empty root with any subpath produces a path containing
a slash. -/
theorem slash_mem_joinL (a b : Str) (ha : a ≠ []) : '/' ∈ joinL a b := by
  unfold joinL
  by_cases h₁ : b.head? = some '/'
  · rw [if_pos h₁]
    cases b with
    | nil => simp at h₁
    | cons c t =>
      simp only [List.head?_cons, Option.some_inj] at h₁
      rw [h₁]; simp
  · rw [if_neg h₁]
    by_cases h₂ : a = [] ∨ a.getLast? = some '/'
    · rw [if_pos h₂]
      rcases h₂ with h₂ | h₂
      · exact absurd h₂ ha
      · have : '/' ∈ a := by
          cases ha' : a.getLast? with
          | none => rw [ha'] at h₂; simp at h₂
          | some c =>
            rw [ha'] at h₂
            have hc : c = '/' := by simpa using h₂
            subst hc
            exact List.mem_of_mem_getLast? ha'
        exact List.mem_append.mpr (Or.inl this)
    · rw [if_neg h₂]
      exact List.mem_append.mpr (Or.inr (List.mem_cons_self _ _))

/-- C1: the claim expects counter 8 for listed keys
`img_1.png, img_2.png, img_7.png` under base `img`; the code returns 1,
because `int("1.png")` etc. raise and each key contributes counter 0. -/
theorem C1_counter_not_eight :
    (get_save_path storeA (str "img") 0 0).2.counter ≠ 8 := by decide

/-- C1 (amended): resolving template `img` when the listed keys are
exactly `img_1.png, img_2.png, img_7.png` returns counter 1: every key is
eligible but its counter segment (`1.png`, `2.png`, `7.png`) fails
integer parsing and contributes 0. -/
theorem C1_counter_is_one :
    (get_save_path storeA (str "img") 0 0).2.counter = 1 := by decide

/-- C5: the claim expects counter 4 for listed keys
`img_abc.png, img_3.png`; the code returns 1, because `int("3.png")`
raises just like `int("abc.png")`, so both keys contribute counter 0. -/
theorem C5_counter_not_four :
    (get_save_path storeB (str "img") 0 0).2.counter ≠ 4 := by decide

/-- C5 (amended): resolving base `img` with listed keys exactly
`img_abc.png, img_3.png` returns counter 1: both counter segments
(`abc.png` and `3.png`) fail integer parsing and contribute 0. -/
theorem C5_counter_is_one :
    (get_save_path storeB (str "img") 0 0).2.counter = 1 := by decide

/-- C2: whenever the configured output root is non-empty and the resolved
output folder does not itself begin with the base filename followed by an
underscore, no listed key is eligible (eligibility compares the leading
characters of the full listed key against the base name, and every listed
key starts with the folder, which contains a slash) and the returned
counter is 1, no matter how many correctly numbered outputs exist. -/
theorem C2_foreign_keys_counter_one (s : Store) (fp : Str) (w h : Int)
    (hout : s.output_dir ≠ [])
    (hb : ¬ (gsp_filename fp w h ++ ['_']) <+: gsp_folder s fp w h) :
    gsp_eligible s fp w h = [] ∧ (get_save_path s fp w h).2.counter = 1 := by
  have helig : gsp_eligible s fp w h = [] := by
    rcases helig : gsp_eligible s fp w h with _ | ⟨a, t⟩
    · rfl
    · exfalso
      have ha : a ∈ gsp_eligible s fp w h := by
        rw [helig]; exact List.mem_cons_self _ _
      unfold gsp_eligible at ha
      rw [List.mem_filter] at ha
      obtain ⟨hmap, helb⟩ := ha
      rw [List.mem_map] at hmap
      obtain ⟨k, hkfiles, hak⟩ := hmap
      rw [← hak] at helb
      have hpfx1 : (gsp_filename fp w h ++ ['_']) <+: k :=
        eligible_key_shape _ _ _ helb
      obtain ⟨hpfx2, -, -⟩ :=
        get_files_sound (gsp_store s fp w h) (gsp_folder s fp w h) k hkfiles
      rcases Nat.le_total ((gsp_filename fp w h ++ ['_']).length)
          ((gsp_folder s fp w h).length) with hle | hle
      · exact hb (List.prefix_of_prefix_length_le hpfx1 hpfx2 hle)
      · have hpp : gsp_folder s fp w h <+: gsp_filename fp w h ++ ['_'] :=
          List.prefix_of_prefix_length_le hpfx2 hpfx1 hle
        have hslash : '/' ∈ gsp_folder s fp w h :=
          slash_mem_joinL s.output_dir (gsp_subfolder fp w h) hout
        have hmem : '/' ∈ gsp_filename fp w h ++ ['_'] :=
          List.IsPrefix.mem hslash hpp
        rcases List.mem_append.mp hmem with hm | hm
        · exact slash_not_mem_basenameL (normpathL (gsp_resolved fp w h)) hm
        · simp at hm
  refine ⟨helig, ?_⟩
  show gsp_counter s fp w h = 1
  unfold gsp_counter
  rw [helig]

/-- Witness for C2 at a concrete input: output root `out`, template
`img`, a correctly numbered key `out/img_3_x.png` in the bucket, and
still counter 1 with no eligible candidate. -/
theorem C2_witness :
    gsp_eligible storeD (str "img") 0 0 = [] ∧
      (get_save_path storeD (str "img") 0 0).2.counter = 1 :=
  C2_foreign_keys_counter_one storeD (str "img") 0 0 (by decide) (by decide)

/-- C3: the claim that the returned counter is always at least 1 is
false: with the single listed key `img_-3_x.png` under base `img`, the
counter segment parses as the Python int -3 and the returned counter is
-2. -/
theorem C3_negative_counter :
    (get_save_path storeC (str "img") 0 0).2.counter = -2 ∧
      ¬ (1 ≤ (get_save_path storeC (str "img") 0 0).2.counter) := by
  exact ⟨by decide, by decide⟩

/-- C3 (amended): the returned counter is an integer, and it is at least
1 whenever no bucket key parses to a negative embedded counter (parse
failures contribute 0, so only an explicit minus sign can go below 0). -/
theorem C3_counter_at_least_one_of_nonneg (s : Store) (fp : Str) (w h : Int)
    (hnn : ∀ k ∈ s.keys, 0 ≤ (map_filename (gsp_resolved fp w h) k).1) :
    1 ≤ (get_save_path s fp w h).2.counter := by
  show 1 ≤ gsp_counter s fp w h
  unfold gsp_counter
  rcases helig : gsp_eligible s fp w h with _ | ⟨e, es⟩
  · exact le_refl 1
  · show 1 ≤ (es.foldl pickMax e).1 + 1
    have hmem := foldl_pickMax_mem es e
    rw [← helig] at hmem
    unfold gsp_eligible at hmem
    rw [List.mem_filter] at hmem
    obtain ⟨hmap, -⟩ := hmem
    rw [List.mem_map] at hmap
    obtain ⟨k, hkf, hke⟩ := hmap
    have hk0 := hnn k (gsp_files_mem_keys s fp w h k hkf)
    rw [hke] at hk0
    omega

/-- Witness for C3 (amended) at a concrete input: the C1 bucket, whose
keys all parse to counter 0, yields a counter of at least 1. -/
theorem C3_witness :
    1 ≤ (get_save_path storeA (str "img") 0 0).2.counter :=
  C3_counter_at_least_one_of_nonneg storeA (str "img") 0 0 (by decide)

/-- C4: a listed key is eligible only if its leading characters equal the
base filename exactly and the character immediately following is an
underscore; in particular for base `img1` the key `img10_5.png` is not
eligible. -/
theorem C4_eligibility_boundary :
    (∀ (fp : Str) (w h : Int) (k : Str),
        is_eligible (gsp_filename fp w h)
            (map_filename (gsp_resolved fp w h) k) = true →
          k.take (gsp_filename fp w h).length = gsp_filename fp w h ∧
            (k.drop (gsp_filename fp w h).length).head? = some '_') ∧
      is_eligible (gsp_filename (str "img1") 0 0)
        (map_filename (gsp_resolved (str "img1") 0 0) (str "img10_5.png")) = false := by
  constructor
  · intro fp w h k helig
    obtain ⟨r, hr⟩ := eligible_key_shape _ _ _ helig
    rw [List.append_assoc] at hr
    constructor
    · rw [← hr, List.take_left]
    · rw [← hr, List.drop_left]
      rfl
  · decide

/-- Witness for C4 at a concrete input: `img_3_x.png` is eligible for
base `img` and indeed starts with `img` followed by an underscore. -/
theorem C4_witness :
    (str "img_3_x.png").take (gsp_filename (str "img") 0 0).length
        = gsp_filename (str "img") 0 0 ∧
      ((str "img_3_x.png").drop (gsp_filename (str "img") 0 0).length).head?
        = some '_' :=
  C4_eligibility_boundary.1 (str "img") 0 0 (str "img_3_x.png") (by decide)

/-- C6: a counter-parse failure on an individual key makes that key
contribute counter 0 instead of aborting, and an empty eligible-candidate
set yields counter 1 instead of an error. -/
theorem C6_parse_failure_tolerated :
    (∀ fp k : Str,
        pyInt ((splitOnCharL '_' (k.drop ((basenameL fp).length + 1))).headD [])
            = none →
          (map_filename fp k).1 = 0) ∧
      (∀ (s : Store) (fp : Str) (w h : Int),
        gsp_eligible s fp w h = [] → (get_save_path s fp w h).2.counter = 1) := by
  constructor
  · intro fp k hparse
    simp only [map_filename]
    rw [hparse]
    rfl
  · intro s fp w h helig
    show gsp_counter s fp w h = 1
    unfold gsp_counter
    rw [helig]

/-- Witness for C6 at concrete inputs: `img_abc.png` contributes counter
0 for base `img`, and an empty bucket yields counter 1. -/
theorem C6_witness :
    (map_filename (str "img") (str "img_abc.png")).1 = 0 ∧
      (get_save_path storeF (str "img") 0 0).2.counter = 1 :=
  ⟨C6_parse_failure_tolerated.1 (str "img") (str "img_abc.png") (by decide),
   C6_parse_failure_tolerated.2 storeF (str "img") 0 0 (by decide)⟩

/-- C7: when the listing raises or the folder-existence check raises,
`get_save_path` does not propagate an error: the scan yields no eligible
candidates and the returned counter is 1. -/
theorem C7_store_error_counter_one (s : Store) (fp : Str) (w h : Int)
    (hfail : s.listOk = false ∨ s.existsOk = false) :
    (get_save_path s fp w h).2.counter = 1 := by
  have hfiles : gsp_files s fp w h = [] := by
    rcases hfail with hf | hf
    · have hli : (gsp_store s fp w h).listOk = false := by
        show (ensure_folder s (gsp_folder s fp w h)).listOk = false
        rw [(ensure_folder_flags s (gsp_folder s fp w h)).2.1, hf]
      unfold gsp_files get_files
      rcases hdfe : does_folder_exist (gsp_store s fp w h) (gsp_folder s fp w h)
          with _ | b
      · rfl
      · cases b with
        | false => rfl
        | true => simp [hli]
    · have hex : (gsp_store s fp w h).existsOk = false := by
        show (ensure_folder s (gsp_folder s fp w h)).existsOk = false
        rw [(ensure_folder_flags s (gsp_folder s fp w h)).1, hf]
      unfold gsp_files get_files
      have hdfe : does_folder_exist (gsp_store s fp w h) (gsp_folder s fp w h)
          = none := by
        unfold does_folder_exist
        rw [if_neg (by rw [hex]; simp)]
      rw [hdfe]
  show gsp_counter s fp w h = 1
  unfold gsp_counter gsp_eligible
  rw [hfiles]
  rfl

/-- Witness for C7 at a concrete input: a bucket whose listing call
raises, although it holds a correctly numbered key, yields counter 1. -/
theorem C7_witness :
    (get_save_path storeG (str "img") 0 0).2.counter = 1 :=
  C7_store_error_counter_one storeG (str "img") 0 0 (Or.inl rfl)

/-- C8: the claim that `get_files` includes folder-marker keys ending in
a slash is false: the marker `p/` matches the prefix `p` and is within
the listing cap, yet `get_files` returns the empty list. -/
theorem C8_marker_excluded :
    (str "p").isPrefixOf (str "p/") = true ∧
      (str "p/") ∈ storeE.keys ∧
      storeE.keys.length ≤ storeE.list_limit_items ∧
      get_files storeE (str "p") = [] := by
  exact ⟨by decide, by decide, by decide, by decide⟩

/-- C8 (amended): `get_files` returns at most `list_limit_items` keys,
every returned key starts with the given prefix and does not end in a
slash (folder markers are filtered out by `get_files` itself, not left to
the caller), and the result is empty when no key matches the prefix. -/
theorem C8_get_files_contract (s : Store) (q : Str) :
    (get_files s q).length ≤ s.list_limit_items ∧
      (∀ k ∈ get_files s q, q <+: k ∧ k.getLast? ≠ some '/') ∧
      ((∀ k ∈ s.keys, q.isPrefixOf k = false) → get_files s q = []) := by
  refine ⟨?_, ?_, ?_⟩
  · unfold get_files
    rcases hdfe : does_folder_exist s q with _ | b
    · simp
    · cases b with
      | false => simp
      | true =>
        by_cases hl : s.listOk = true
        · simp only [hl, if_true]
          exact le_trans (List.length_filter_le _ _) (List.length_take_le _ _)
        · simp [hl]
  · intro k hk
    obtain ⟨h1, -, h3⟩ := get_files_sound s q k hk
    exact ⟨h1, h3⟩
  · intro hnone
    unfold get_files
    rcases hdfe : does_folder_exist s q with _ | b
    · rfl
    · cases b with
      | false => rfl
      | true =>
        by_cases hl : s.listOk = true
        · have hfil : s.keys.filter (fun k => q.isPrefixOf k) = [] := by
            rw [List.filter_eq_nil_iff]
            intro a ha
            rw [hnone a ha]
            simp
          simp [hl, hfil]
        · simp [hl]

/-- Witness for C8 (amended) at a concrete input: no key of the bucket
starts with `zzz`, so the listing is empty and within the cap. -/
theorem C8_witness :
    (get_files storeC (str "zzz")).length ≤ storeC.list_limit_items ∧
      get_files storeC (str "zzz") = [] :=
  ⟨(C8_get_files_contract storeC (str "zzz")).1,
   (C8_get_files_contract storeC (str "zzz")).2.2 (by decide)⟩

/-- C9: when a template contains neither the token `%width%` nor
`%height%`, substitution returns it unchanged; and in general the
substitution equals the spec-level "replace every occurrence of each
token by the decimal string form" operation. -/
theorem C9_substitution (t : Str) (w h : Int) :
    (containsSubL '%' (str "width%") t = false ∧
        containsSubL '%' (str "height%") t = false →
      compute_vars t w h = t) ∧
      compute_vars t w h = substituteSpec t w h := by
  have hw : ∀ (s rep : Str),
      replaceSub s (str "%width%") rep = replaceL '%' (str "width%") rep s :=
    fun s rep => rfl
  have hh : ∀ (s rep : Str),
      replaceSub s (str "%height%") rep = replaceL '%' (str "height%") rep s :=
    fun s rep => rfl
  constructor
  · rintro ⟨h1, h2⟩
    unfold compute_vars
    rw [hw, replaceL_of_not_contains _ _ _ _ h1, hh,
      replaceL_of_not_contains _ _ _ _ h2]
  · unfold compute_vars substituteSpec
    rw [hw, hh, replaceL_eq_intercalate, replaceL_eq_intercalate]

/-- Witness for C9 at a concrete input: `abc` contains no token and is
returned unchanged. -/
theorem C9_witness : compute_vars (str "abc") 512 7 = str "abc" :=
  (C9_substitution (str "abc") 512 7).1 ⟨by decide, by decide⟩

/-- A list without duplicates holds any value at most once. -/
theorem count_le_one_of_nodup : ∀ l : List Str, l.Nodup → ∀ a : Str,
    List.count a l ≤ 1 := by
  intro l
  induction l with
  | nil => intro _ a; simp
  | cons x t ih =>
    intro hnd a
    rcases List.nodup_cons.mp hnd with ⟨hx, ht⟩
    rw [List.count_cons]
    by_cases hxa : x = a
    · subst hxa
      have hz : List.count x t = 0 := List.count_eq_zero.mpr hx
      simp [hz]
    · have hne : (x == a) = false := by simp [hxa]
      simpa [hne] using ih ht a

/-- C10: folder provisioning is idempotent: when the store operations
succeed and the bucket keys are distinct, provisioning twice equals
provisioning once (the second run performs no write), and the final
bucket holds the marker key at most once. -/
theorem C10_ensure_folder_idempotent (s : Store) (q : Str)
    (hex : s.existsOk = true) (hput : s.putOk = true) (hnd : s.keys.Nodup) :
    ensure_folder (ensure_folder s q) q = ensure_folder s q ∧
      List.count (q ++ ['/']) (ensure_folder (ensure_folder s q) q).keys ≤ 1 := by
  have hany : ∀ (l : List Str) (p : Str → Bool), (l.filter p).any p = l.any p := by
    intro l p
    rw [List.any_filter]
    simp [Bool.and_self]
  have hdfe : ∀ s' : Store, s'.existsOk = true →
      does_folder_exist s' q = some (s'.keys.any (fun k => q.isPrefixOf k)) := by
    intro s' hex'
    unfold does_folder_exist
    rw [if_pos hex', hany]
  by_cases hb : s.keys.any (fun k => q.isPrefixOf k) = true
  · have h1 : ensure_folder s q = s := by
      unfold ensure_folder
      rw [hdfe s hex, hb]
      simp
    rw [h1, h1]
    exact ⟨rfl, count_le_one_of_nodup s.keys hnd _⟩
  · have hb' : s.keys.any (fun k => q.isPrefixOf k) = false :=
      Bool.eq_false_iff.mpr hb
    have hqm : q.isPrefixOf (q ++ ['/']) = true :=
      List.isPrefixOf_iff_prefix.mpr (List.prefix_append _ _)
    have hnotmem : (q ++ ['/']) ∉ s.keys := by
      intro hm
      have : s.keys.any (fun k => q.isPrefixOf k) = true :=
        List.any_eq_true.mpr ⟨_, hm, hqm⟩
      rw [hb'] at this
      exact Bool.false_ne_true this
    have h1 : ensure_folder s q = { s with keys := s.keys ++ [q ++ ['/']] } := by
      unfold ensure_folder
      rw [hdfe s hex, hb']
      simp only [Option.getD_some, Bool.false_eq_true, if_false]
      unfold create_folder
      rw [if_pos hput, if_neg hnotmem]
    have h2 : ensure_folder { s with keys := s.keys ++ [q ++ ['/']] } q
        = { s with keys := s.keys ++ [q ++ ['/']] } := by
      unfold ensure_folder
      rw [hdfe { s with keys := s.keys ++ [q ++ ['/']] } hex]
      have hb1 : ({ s with keys := s.keys ++ [q ++ ['/']] } : Store).keys.any
          (fun k => q.isPrefixOf k) = true := by
        apply List.any_eq_true.mpr
        exact ⟨q ++ ['/'], by simp, hqm⟩
      rw [hb1]
      simp
    constructor
    · rw [h1, h2]
    · rw [h1, h2]
      show List.count (q ++ ['/']) (s.keys ++ [q ++ ['/']]) ≤ 1
      rw [List.count_append]
      have hz : List.count (q ++ ['/']) s.keys = 0 :=
        List.count_eq_zero.mpr hnotmem
      rw [hz]
      simp

/-- Witness for C10 at a concrete input: provisioning the folder `p`
twice on an empty bucket equals provisioning it once, and the marker
`p/` appears exactly once, hence at most once. -/
theorem C10_witness :
    ensure_folder (ensure_folder storeF (str "p")) (str "p")
        = ensure_folder storeF (str "p") ∧
      List.count (str "p" ++ ['/'])
        (ensure_folder (ensure_folder storeF (str "p")) (str "p")).keys ≤ 1 :=
  C10_ensure_folder_idempotent storeF (str "p") rfl rfl (by decide)

end ComfyS3
